import Mathlib

/-
Verification of the MCX computational core against its specification.

Part 1 embeds the CUDA transport kernel mcx_main_loop (src/mcextreme.cu)
over the reals: float arithmetic is idealized as real arithmetic, the
Mersenne-Twister draws ran/MAX_MT_RAND are abstracted as real inputs u1,
u2, u3, and the constant-memory tables media / gproperty are total
functions carried in the parameter record.

Part 2 embeds the Mie precomputation routines (mcx_utils.c): the input
dispatch of Mie, the final Mueller-matrix assignment shared by Mie and
small_Mie, the trapezoidal anisotropy quotient of MiePoly, and the
angle-indexed accumulation loops of MiePoly and WhittleMattern with
Option-returning array indexing over rationals.
-/

noncomputable section

namespace MCX

/-- Real 3-vector, mirroring float3. -/
structure Vec3 where
  x : ℝ
  y : ℝ
  z : ℝ

/-- Real 4-vector, mirroring float4 (pos: x,y,z,weight; dir: dx,dy,dz,scatter count). -/
structure Vec4 where
  x : ℝ
  y : ℝ
  z : ℝ
  w : ℝ

/-- mcextreme.cu line 24: grid dimension DIMX. -/
def DIMX : ℤ := 128

/-- mcextreme.cu line 25: grid dimension DIMY. -/
def DIMY : ℤ := 128

/-- mcextreme.cu line 26: grid dimension DIMZ. -/
def DIMZ : ℤ := 128

/-- mcextreme.cu line 28: DIMYZ = DIMY*DIMZ. -/
def DIMYZ : ℤ := DIMY * DIMZ

/-- mcextreme.cu line 32: the float literal TWO_PI = 6.28318530717959f. -/
def TWO_PI : ℝ := 6.28318530717959

/-- mcextreme.cu line 50: sentinel for a completed free flight. -/
def MINUS_SAME_VOXEL : ℝ := -9999

/-- Parameters of mcx_main_loop (lines 70-72): the scalar arguments, the
launch position p0 and direction c0, the boundary box maxidx, and the
constant tables media (uchar array, as a total function of the linear
voxel index) and gproperty (float2 array: .1 is prop.x = mua, .2 is
prop.y = mus).  gg2 and ggx2 are separate arguments, as in the kernel
signature; main passes gg*gg and 2*gg for them (line 270). -/
structure KParams where
  minstep : ℝ
  lmax : ℝ
  gg : ℝ
  gg2 : ℝ
  ggx2 : ℝ
  p0 : Vec4
  c0 : Vec4
  maxidx : Vec3
  media : ℤ → ℕ
  gproperty : ℕ → ℝ × ℝ

/-- Mutable per-photon state of the kernel: npos (position + weight),
ndir (direction + scatter count), nlen (residual free flight, pathlength,
relaunch counter), the current linear voxel index idx1d, the launch voxel
idxorig (line 91), and the shared fluence array field. -/
structure PState where
  npos : Vec4
  ndir : Vec4
  nlen : Vec3
  idx1d : ℤ
  idxorig : ℤ
  field : ℤ → ℝ

/-- mcextreme.cu line 90/155: idx1d = int(floorf(x)*DIMYZ+floorf(y)*DIMZ+floorf(z)).
The float products are exact integers in the valid range, so this is the
integer combination of the coordinate floors. -/
def voxelIndex (p : Vec4) : ℤ := ⌊p.x⌋ * DIMYZ + ⌊p.y⌋ * DIMZ + ⌊p.z⌋

/-- mcextreme.cu lines 114-116: the Henyey-Greenstein cosine.
foo = (1-gg2)/(1-gg+ggx2*u); foo = foo*foo; foo = (1+gg2-foo)/ggx2.
There is no special case for gg = 0: ggx2 = 2*gg is then a zero divisor. -/
def hgfoo (gg gg2 ggx2 u : ℝ) : ℝ :=
  (1 + gg2 - ((1 - gg2) / (1 - gg + ggx2 * u)) * ((1 - gg2) / (1 - gg + ggx2 * u))) / ggx2

/-- mcextreme.cu lines 124-138: the direction rotation.  tmp0 = 1-z*z,
tmp1 = rsqrtf(tmp0), tmp2 = stheta*tmp1 are inlined.  When the polar
branch is taken but stheta <= 1e-20 the direction is left unchanged
(the guard on line 128); when z is outside (-1,1) the new direction is
(stheta*cphi, stheta*sphi, ctheta) with no sign adjustment (line 137). -/
def scatterNewDir (stheta ctheta sphi cphi : ℝ) (ndir0 : Vec4) : Vec4 :=
  if -1 < ndir0.z ∧ ndir0.z < 1 then
    if stheta > 1e-20 then
      ⟨stheta * (Real.sqrt (1 - ndir0.z * ndir0.z))⁻¹ * (ndir0.x * ndir0.z * cphi - ndir0.y * sphi)
         + ndir0.x * ctheta,
       stheta * (Real.sqrt (1 - ndir0.z * ndir0.z))⁻¹ * (ndir0.y * ndir0.z * cphi + ndir0.x * sphi)
         + ndir0.y * ctheta,
       -(stheta * (Real.sqrt (1 - ndir0.z * ndir0.z))⁻¹) * (1 - ndir0.z * ndir0.z) * cphi
         + ndir0.z * ctheta,
       ndir0.w⟩
    else ndir0
  else ⟨stheta * cphi, stheta * sphi, ctheta, ndir0.w⟩

/-- mcextreme.cu line 139: ndir.w++ (the per-photon scatter count). -/
def bumpW (v : Vec4) : Vec4 := ⟨v.x, v.y, v.z, v.w + 1⟩

/-- mcextreme.cu lines 94-141: the scatter-decision phase of one
micro-step.  If the current jump is finished (nlen.x <= 0) a new free
flight -log(u1) is drawn; if moreover the weight is below 1 a
Henyey-Greenstein direction is sampled from u2 (azimuth) and u3 (cosine):
phi = TWO_PI*u2, ctheta = hgfoo, theta = acos(ctheta), stheta = sin(theta). -/
def stepScatter (P : KParams) (u1 u2 u3 : ℝ) (s : PState) : PState :=
  if s.nlen.x ≤ 0 then
    if s.npos.w < 1 then
      { s with
        nlen := ⟨-Real.log u1, s.nlen.y, s.nlen.z⟩,
        ndir := bumpW (scatterNewDir
          (Real.sin (Real.arccos (hgfoo P.gg P.gg2 P.ggx2 u3)))
          (hgfoo P.gg P.gg2 P.ggx2 u3)
          (Real.sin (TWO_PI * u2)) (Real.cos (TWO_PI * u2)) s.ndir) }
    else
      { s with nlen := ⟨-Real.log u1, s.nlen.y, s.nlen.z⟩ }
  else s

/-- mcextreme.cu lines 142-143: prop = gproperty[media[idx1d]]. -/
def propOf (P : KParams) (s : PState) : ℝ × ℝ := P.gproperty (P.media s.idx1d)

/-- mcextreme.cu lines 144-156: the voxel-step phase.  len = minstep*prop.y.
If len > nlen.x the scattering event ends inside the voxel: advance by
step = nlen.x/prop.y, attenuate by exp(-prop.x*step), mark the flight
finished with MINUS_SAME_VOXEL.  Otherwise advance one full minstep along
the direction, attenuate by exp(-prop.x*minstep), consume len from the
residual flight and recompute the voxel index. -/
def stepMove (P : KParams) (s : PState) : PState :=
  if P.minstep * (propOf P s).2 > s.nlen.x then
    { s with
      npos := ⟨s.npos.x + s.ndir.x * (s.nlen.x / (propOf P s).2),
               s.npos.y + s.ndir.y * (s.nlen.x / (propOf P s).2),
               s.npos.z + s.ndir.z * (s.nlen.x / (propOf P s).2),
               s.npos.w * Real.exp (-(propOf P s).1 * (s.nlen.x / (propOf P s).2))⟩,
      nlen := ⟨MINUS_SAME_VOXEL, s.nlen.y + s.nlen.x / (propOf P s).2, s.nlen.z⟩ }
  else
    { s with
      npos := ⟨s.npos.x + s.ndir.x, s.npos.y + s.ndir.y, s.npos.z + s.ndir.z,
               s.npos.w * Real.exp (-(propOf P s).1 * P.minstep)⟩,
      nlen := ⟨s.nlen.x - P.minstep * (propOf P s).2, s.nlen.y + P.minstep, s.nlen.z⟩,
      idx1d := voxelIndex ⟨s.npos.x + s.ndir.x, s.npos.y + s.ndir.y, s.npos.z + s.ndir.z,
               s.npos.w * Real.exp (-(propOf P s).1 * P.minstep)⟩ }

/-- mcextreme.cu line 157: the relaunch test of the boundary phase. -/
def relaunchCond (P : KParams) (s : PState) : Prop :=
  s.nlen.x > P.lmax ∨ s.npos.x < 0 ∨ s.npos.y < 0 ∨ s.npos.z < 0 ∨
  s.npos.x > P.maxidx.x ∨ s.npos.y > P.maxidx.y ∨ s.npos.z > P.maxidx.z

instance (P : KParams) (s : PState) : Decidable (relaunchCond P s) := by
  unfold relaunchCond; infer_instance

/-- mcextreme.cu lines 157-165: the boundary phase.  On relaunch the
photon is reset to (p0, c0), nlen to (0, 0, nlen.z+1) and idx1d to
idxorig; otherwise field[idx1d] += (nlen.x > 0 ? npos.w : 0). -/
def stepBoundary (P : KParams) (s : PState) : PState :=
  if relaunchCond P s then
    { s with npos := P.p0, ndir := P.c0, nlen := ⟨0, 0, s.nlen.z + 1⟩, idx1d := s.idxorig }
  else
    { s with field := fun j => if j = s.idx1d
        then s.field j + (if s.nlen.x > 0 then s.npos.w else 0) else s.field j }

/-- One iteration of the for loop, mcextreme.cu lines 93-166. -/
def microStep (P : KParams) (u1 u2 u3 : ℝ) (s : PState) : PState :=
  stepBoundary P (stepMove P (stepScatter P u1 u2 u3 s))

/-- The kernel loop: one microStep per element of the list of random
draws (the i = 0..totalmove-1 loop of line 93). -/
def runSteps (P : KParams) : List (ℝ × ℝ × ℝ) → PState → PState
  | [], s => s
  | u :: us, s => runSteps P us (microStep P u.1 u.2.1 u.2.2 s)

/-- The direction-norm invariant: the first three components form a unit
vector. -/
def unit3 (v : Vec4) : Prop := v.x ^ 2 + v.y ^ 2 + v.z ^ 2 = 1

/-- The kernel parameters as instantiated by main (mcextreme.cu lines
182-190, 270): minstep 1, lmax 100, gg 0.98, gg2 = gg*gg, ggx2 = 2*gg,
p0 = (10,10,0,1), c0 = (0,0,1,0), maxidx = (127,127,127), all voxels
holding medium 1 with properties (mua, mus) = (0, 2) chosen for the
concrete evaluations below. -/
def exP : KParams where
  minstep := 1
  lmax := 100
  gg := 0.98
  gg2 := 0.9604
  ggx2 := 1.96
  p0 := ⟨10, 10, 0, 1⟩
  c0 := ⟨0, 0, 1, 0⟩
  maxidx := ⟨127, 127, 127⟩
  media := fun _ => 1
  gproperty := fun _ => (0, 2)

/-- A concrete in-flight photon state: position (126.5, 10, 10), weight
1/2, direction +x, residual flight 5, zero fluence everywhere. -/
def exS : PState where
  npos := ⟨126.5, 10, 10, 0.5⟩
  ndir := ⟨1, 0, 0, 0⟩
  nlen := ⟨5, 0, 0⟩
  idx1d := 2065674
  idxorig := 165120
  field := fun _ => 0

/-! ## Part 2: the Mie precomputation (mcx_utils.c) -/

/-- The four ways the entry of Mie (mcx_utils.c lines 102-113) can
proceed.  MCX_ERROR (defined in mcx_utils.h, outside src) aborts loudly;
it is modelled as returning the corresponding error outcome: the spec
names them InvalidInput (x <= 0) and Unvalidated (x > 20000). -/
inductive MieOutcome where
  | invalidInput
  | unvalidated
  | smallSphere
  | fullMie
deriving DecidableEq

/-- Mie input dispatch, mcx_utils.c lines 91-115: m = mx + 0i; fail when
x <= 0, fail when x > 20000, delegate to small_Mie when
(creal(m) = 0 and x < 0.1) or (creal(m) > 0 and cabs(m)*x < 0.1),
otherwise run the full series. -/
def mieDispatch (x mx : ℝ) : MieOutcome :=
  if x ≤ 0 then MieOutcome.invalidInput
  else if x > 20000 then MieOutcome.unvalidated
  else if ((Complex.ofReal mx).re = 0 ∧ x < 0.1) ∨
          (0 < (Complex.ofReal mx).re ∧ Complex.abs (Complex.ofReal mx) * x < 0.1) then
    MieOutcome.smallSphere
  else MieOutcome.fullMie

/-- The Mueller-matrix entry produced from the accumulated amplitudes,
mcx_utils.c lines 205-210 (Mie) and 487-490 (small_Mie):
S11 = 0.5|s2|^2 + 0.5|s1|^2, S12 = 0.5|s2|^2 - 0.5|s1|^2,
S33 = Re(conj(s1)*s2), S43 = Im(conj(s1)*s2). -/
def muellerEntry (s1 s2 : ℂ) : Vec4 :=
  ⟨0.5 * Complex.abs s2 * Complex.abs s2 + 0.5 * Complex.abs s1 * Complex.abs s1,
   0.5 * Complex.abs s2 * Complex.abs s2 - 0.5 * Complex.abs s1 * Complex.abs s1,
   ((starRingEnd ℂ) s1 * s2).re,
   ((starRingEnd ℂ) s1 * s2).im⟩

/-- The final smatrix loop of Mie (lines 205-210) applied to the
accumulated partial-wave sums s1, s2, at angle index k. -/
def mieSmatrix (s1 s2 : ℕ → ℂ) (k : ℕ) : Vec4 := muellerEntry (s1 k) (s2 k)

/-- The smatrix loop of small_Mie (lines 481-491): at cosine muj,
s1 = ahat1 + (bhat1 + ahat2)*muj and s2 = bhat1 + (ahat1 + ahat2)*(2*muj*muj - 1)
feed the same Mueller formulas. -/
def smallMieSmatrix (ahat1 bhat1 ahat2 : ℂ) (muj : ℝ) : Vec4 :=
  muellerEntry (ahat1 + (bhat1 + ahat2) * (muj : ℂ))
               (bhat1 + (ahat1 + ahat2) * ((2 * muj * muj - 1 : ℝ) : ℂ))

/-- The two running sums temp (numerator) and temp2 (denominator) of the
trapezoidal anisotropy recomputation, mcx_utils.c lines 312-328, after
the loop has processed indices 0..n-1.  The i = 0 step adds
mu[0]*s11[0]*|mu[0]-1| to temp but the signed s11[0]*(mu[0]-1) to temp2;
every later step i adds mu[i]*(s11[i]+s11[i-1])*|mu[i]-mu[i-1]|/2 and
(s11[i]+s11[i-1])*|mu[i]-mu[i-1]|/2. -/
def trapzSums (mu s11 : ℕ → ℚ) : ℕ → ℚ × ℚ
  | 0 => (0, 0)
  | n + 1 =>
    ((trapzSums mu s11 n).1 +
       (if n = 0 then mu 0 * s11 0 * |mu 0 - 1|
        else mu n * (s11 n + s11 (n - 1)) * |mu n - mu (n - 1)| / 2),
     (trapzSums mu s11 n).2 +
       (if n = 0 then s11 0 * (mu 0 - 1)
        else (s11 n + s11 (n - 1)) * |mu n - mu (n - 1)| / 2))

/-- The anisotropy returned by MiePoly (line 329): g = temp/temp2 with
the sums taken over the n = NANGLES loop indices. -/
def miePolyG (mu s11 : ℕ → ℚ) (n : ℕ) : ℚ :=
  (trapzSums mu s11 n).1 / (trapzSums mu s11 n).2

/-- Following the words of claim C9 (not the source): both sums carry the
trapezoid average (S11_k + S11_(k-1))/2 and the absolute interval, the
k = 0 term substituting (mu_0 - 1) for the interval (with the k-1 index
clamped at 0, so the k = 0 trapezoid average degenerates to S11_0). -/
def specTrapzG (mu s11 : ℕ → ℚ) (n : ℕ) : ℚ :=
  (Finset.sum (Finset.range n) fun k =>
     mu k * (s11 k + s11 (k - 1)) / 2 * |if k = 0 then mu 0 - 1 else mu k - mu (k - 1)|) /
  (Finset.sum (Finset.range n) fun k =>
     (s11 k + s11 (k - 1)) / 2 * |if k = 0 then mu 0 - 1 else mu k - mu (k - 1)|)

/-- Rational 4-vector for the Option-indexed loop embeddings. -/
structure Vec4Q where
  x : ℚ
  y : ℚ
  z : ℚ
  w : ℚ

/-- A store through a checked index: the C write a[i] = v is in bounds
exactly when i < length. -/
def setIdx {α : Type} (l : List α) (i : ℕ) (v : α) : Option (List α) :=
  if i < l.length then some (l.set i v) else none

/-- One body execution of the per-radius accumulation loop of MiePoly
(lines 303-309): read smatrix[i] and the four running averages at i, add
w*smatrix[i] componentwise, store back; none on any out-of-bounds access.
The four average arrays are carried jointly as one Vec4Q list. -/
def accumIdx (w : ℚ) (smx : List Vec4Q) (avg : List Vec4Q) (i : ℕ) : Option (List Vec4Q) :=
  (smx.get? i).bind fun m => (avg.get? i).bind fun a =>
    setIdx avg i ⟨a.x + w * m.x, a.y + w * m.y, a.z + w * m.z, a.w + w * m.w⟩

/-- Sequenced execution of the accumulation body over a list of indices. -/
def accumGo (w : ℚ) (smx : List Vec4Q) : List ℕ → List Vec4Q → Option (List Vec4Q)
  | [], avg => some avg
  | i :: rest, avg => (accumIdx w smx avg i).bind (accumGo w smx rest)

/-- MiePoly lines 303-310: for (int i = 0; i <= NANGLES; i++), i.e. the
index list range(NANGLES + 1) = 0..NANGLES inclusive. -/
def miePolyAccumLoop (w : ℚ) (smx avg : List Vec4Q) (nangles : ℕ) : Option (List Vec4Q) :=
  accumGo w smx (List.range (nangles + 1)) avg

/-- Constant ONE_PI from mcx_const.h (header not under src); modelled
from the spec, whose WhittleMattern formulas use pi. -/
def ONE_PI : ℝ := Real.pi

/-- The Vec4 of values stored at index i by the WhittleMattern spectral
loop (lines 368-372): spectral density
rho = 1/(1 + 4*klc^2*sin(i*pi/NANGLES/2)^2)^(D/2), entries
s11 = (1+cos(i*pi/NANGLES)^2)*rho, s12 = (cos(i*pi/NANGLES)^2-1)*rho,
s33 = 2*cos(i*pi/NANGLES)*rho, s43 = 0. -/
def whittleEntry (klc dfr : ℝ) (nangles i : ℕ) : Vec4 :=
  ⟨(1 + Real.cos ((i : ℝ) * ONE_PI / (nangles : ℝ)) ^ 2) *
     (1 / (1 + 4 * klc ^ 2 * Real.sin ((i : ℝ) * ONE_PI / (nangles : ℝ) / 2) ^ 2) ^ (dfr / 2)),
   (Real.cos ((i : ℝ) * ONE_PI / (nangles : ℝ)) ^ 2 - 1) *
     (1 / (1 + 4 * klc ^ 2 * Real.sin ((i : ℝ) * ONE_PI / (nangles : ℝ) / 2) ^ 2) ^ (dfr / 2)),
   2 * Real.cos ((i : ℝ) * ONE_PI / (nangles : ℝ)) *
     (1 / (1 + 4 * klc ^ 2 * Real.sin ((i : ℝ) * ONE_PI / (nangles : ℝ) / 2) ^ 2) ^ (dfr / 2)),
   0⟩

/-- Sequenced execution of the WhittleMattern store body over indices;
the four working arrays are carried jointly as one Vec4 list. -/
def whittleGo (klc dfr : ℝ) (nangles : ℕ) : List ℕ → List Vec4 → Option (List Vec4)
  | [], arrs => some arrs
  | i :: rest, arrs =>
    (setIdx arrs i (whittleEntry klc dfr nangles i)).bind (whittleGo klc dfr nangles rest)

/-- WhittleMattern lines 366-373: for (i = 1; i <= NANGLES; ++i), i.e.
the index list range'(1, NANGLES) = 1..NANGLES inclusive. -/
def whittleLoop (klc dfr : ℝ) (arrs : List Vec4) (nangles : ℕ) : Option (List Vec4) :=
  whittleGo klc dfr nangles (List.range' 1 nangles) arrs

/-! ## Theorems -/

/-- Helper: the Mueller entry from any pair of amplitudes has S11
nonnegative and dominating |S12|. -/
theorem muellerEntry_dominates (s1 s2 : ℂ) :
    0 ≤ (muellerEntry s1 s2).x ∧ |(muellerEntry s1 s2).y| ≤ (muellerEntry s1 s2).x := by
  have h1 : 0 ≤ Complex.abs s1 * Complex.abs s1 := mul_self_nonneg _
  have h2 : 0 ≤ Complex.abs s2 * Complex.abs s2 := mul_self_nonneg _
  have hx : (muellerEntry s1 s2).x =
      0.5 * Complex.abs s2 * Complex.abs s2 + 0.5 * Complex.abs s1 * Complex.abs s1 := rfl
  have hy : (muellerEntry s1 s2).y =
      0.5 * Complex.abs s2 * Complex.abs s2 - 0.5 * Complex.abs s1 * Complex.abs s1 := rfl
  rw [hx, hy, abs_le]
  refine ⟨by nlinarith, by nlinarith, by nlinarith⟩

/-- Claim C6: Mie fails with InvalidInput exactly when x <= 0, with
Unvalidated exactly when x > 20000, and for 0 < x <= 20000 it raises
neither error and proceeds (to the small-particle branch or the full
series). -/
theorem mie_dispatch_errors (x mx : ℝ) :
    (mieDispatch x mx = MieOutcome.invalidInput ↔ x ≤ 0) ∧
    (mieDispatch x mx = MieOutcome.unvalidated ↔ 20000 < x) ∧
    (0 < x → x ≤ 20000 →
      mieDispatch x mx = MieOutcome.smallSphere ∨ mieDispatch x mx = MieOutcome.fullMie) := by
  unfold mieDispatch
  split_ifs with h1 h2 h3 <;>
    refine ⟨?_, ?_, fun hx hx20 => ?_⟩ <;>
    simp_all <;> linarith

/-- Witness for C6 at the concrete input x = 1, mx = 1.5. -/
theorem mie_dispatch_errors_spot :
    (0 : ℝ) < 1 ∧ (1 : ℝ) ≤ 20000 ∧
    (mieDispatch 1 1.5 = MieOutcome.smallSphere ∨ mieDispatch 1 1.5 = MieOutcome.fullMie) :=
  ⟨by norm_num, by norm_num, (mie_dispatch_errors 1 1.5).2.2 (by norm_num) (by norm_num)⟩

/-- Claim C7: the Mueller entries produced by the final smatrix loops of
Mie and of small_Mie satisfy S11 >= 0 and |S12| <= S11 at every angle
index, for any values of the accumulated amplitudes. -/
theorem smatrix_s11_dominates (s1f s2f : ℕ → ℂ) (a1 b1 a2 : ℂ) (mus : ℕ → ℝ) (k : ℕ) :
    (0 ≤ (mieSmatrix s1f s2f k).x ∧ |(mieSmatrix s1f s2f k).y| ≤ (mieSmatrix s1f s2f k).x) ∧
    (0 ≤ (smallMieSmatrix a1 b1 a2 (mus k)).x ∧
      |(smallMieSmatrix a1 b1 a2 (mus k)).y| ≤ (smallMieSmatrix a1 b1 a2 (mus k)).x) :=
  ⟨muellerEntry_dominates _ _, muellerEntry_dominates _ _⟩

/-- Claim C2 (code bug): the kernel cosine at parameters gg2 = g*g and
ggx2 = 2*g agrees with the Henyey-Greenstein closed form for every g and
u, but at g = 0 the divisor ggx2 is 0: the embedded value (division by
zero gives 0 in the real idealization; NaN in the CUDA floats) is not
the uniform sample 2u - 1 = -1/2 required at u = 1/4, because
mcx_main_loop has no g = 0 special case. -/
theorem hg_cosine_g0 :
    (∀ g u : ℝ, hgfoo g (g * g) (2 * g) u =
        (1 + g ^ 2 - ((1 - g ^ 2) / (1 - g + 2 * g * u)) ^ 2) / (2 * g)) ∧
    2 * (0 : ℝ) = 0 ∧
    hgfoo 0 (0 * 0) (2 * 0) (1 / 4) = 0 ∧
    2 * (1 / 4 : ℝ) - 1 ≠ 0 := by
  refine ⟨fun g u => ?_, by norm_num, ?_, by norm_num⟩
  · unfold hgfoo; ring
  · norm_num [hgfoo]

/-- Claim C3 (amended): with the polar branch taken and sin(theta) above
the 1e-20 guard, the rotated direction is the standard azimuthal/polar
update; when sin(theta) <= 1e-20 the direction is left unchanged; and in
the |dz| >= 1 branch the new direction is (sin·cos phi, sin·sin phi,
cos theta) with no sign adjustment from dz. -/
theorem scatter_rotation_formula (stheta ctheta sphi cphi : ℝ) (d : Vec4) :
    ((-1 < d.z ∧ d.z < 1) → 1e-20 < stheta →
      scatterNewDir stheta ctheta sphi cphi d =
        ⟨stheta * (d.x * d.z * cphi - d.y * sphi) / Real.sqrt (1 - d.z * d.z) + d.x * ctheta,
         stheta * (d.y * d.z * cphi + d.x * sphi) / Real.sqrt (1 - d.z * d.z) + d.y * ctheta,
         -(stheta * Real.sqrt (1 - d.z * d.z) * cphi) + d.z * ctheta,
         d.w⟩) ∧
    ((-1 < d.z ∧ d.z < 1) → stheta ≤ 1e-20 →
      scatterNewDir stheta ctheta sphi cphi d = d) ∧
    (¬(-1 < d.z ∧ d.z < 1) →
      scatterNewDir stheta ctheta sphi cphi d = ⟨stheta * cphi, stheta * sphi, ctheta, d.w⟩) := by
  refine ⟨fun hz hs => ?_, fun hz hs => ?_, fun hz => ?_⟩
  · unfold scatterNewDir
    rw [if_pos hz, if_pos hs]
    have h0 : (0 : ℝ) < 1 - d.z * d.z := by nlinarith [hz.1, hz.2]
    have hq : (Real.sqrt (1 - d.z * d.z))⁻¹ * (1 - d.z * d.z) = Real.sqrt (1 - d.z * d.z) := by
      rw [inv_mul_eq_div, Real.div_sqrt]
    simp only [Vec4.mk.injEq]
    refine ⟨by ring, by ring, ?_, trivial⟩
    linear_combination (-(stheta * cphi)) * hq
  · unfold scatterNewDir
    rw [if_pos hz, if_neg (not_lt.mpr hs)]
  · unfold scatterNewDir
    rw [if_neg hz]

/-- Witness for C3 at stheta = 1, ctheta = 0, phi = 0, d = (0,1,0). -/
theorem scatter_rotation_formula_spot :
    ((-1 : ℝ) < 0 ∧ (0 : ℝ) < 1) ∧ (1e-20 : ℝ) < 1 ∧
    scatterNewDir 1 0 0 1 ⟨0, 1, 0, 0⟩ =
      ⟨1 * ((0 : ℝ) * 0 * 1 - 1 * 0) / Real.sqrt (1 - 0 * 0) + 0 * 0,
       1 * ((1 : ℝ) * 0 * 1 + 0 * 0) / Real.sqrt (1 - 0 * 0) + 1 * 0,
       -(1 * Real.sqrt (1 - (0 : ℝ) * 0) * 1) + 0 * 0, 0⟩ :=
  ⟨⟨by norm_num, by norm_num⟩, by norm_num,
   (scatter_rotation_formula 1 0 0 1 ⟨0, 1, 0, 0⟩).1 ⟨by norm_num, by norm_num⟩ (by norm_num)⟩

/-- Counterexample to C3 as stated: at theta = pi (sin = 0, cos = -1),
phi = 0 and d = (1,0,0) the kernel leaves the direction unchanged (the
1e-20 guard) while the claimed formula gives x-component -1; and at
theta = 0 with d = (0,0,-1) the kernel produces third component
cos theta = +1 while the claim requires the sign of dz, i.e. -1. -/
theorem scatter_rotation_deviates :
    (scatterNewDir 0 (-1) 0 1 ⟨1, 0, 0, 0⟩ = ⟨1, 0, 0, 0⟩ ∧
      (0 : ℝ) * ((1 : ℝ) * 0 * 1 - 0 * 0) / Real.sqrt (1 - 0 * 0) + 1 * (-1) = -1 ∧
      (1 : ℝ) ≠ -1) ∧
    (scatterNewDir 0 1 0 1 ⟨0, 0, -1, 0⟩ = ⟨0, 0, 1, 0⟩ ∧ (1 : ℝ) ≠ -1) := by
  refine ⟨⟨?_, by norm_num, by norm_num⟩, ⟨?_, by norm_num⟩⟩
  · unfold scatterNewDir
    rw [if_pos (by norm_num), if_neg (by norm_num)]
  · unfold scatterNewDir
    rw [if_neg (by norm_num)]
    norm_num

/-- Helper: bounds on the Henyey-Greenstein cosine when the kernel is
called as main calls it (gg2 = g*g, ggx2 = 2*g) with 0 < g < 1 and a
uniform draw u in [0,1]. -/
theorem hgfoo_bounds (g u : ℝ) (hg0 : 0 < g) (hg1 : g < 1) (hu0 : 0 ≤ u) (hu1 : u ≤ 1) :
    -1 ≤ hgfoo g (g * g) (2 * g) u ∧ hgfoo g (g * g) (2 * g) u ≤ 1 := by
  have hden : (0 : ℝ) < 1 - g + 2 * g * u := by nlinarith
  have hA : (1 - g * g) / (1 - g + 2 * g * u) * (1 - g + 2 * g * u) = 1 - g * g :=
    div_mul_cancel₀ _ hden.ne'
  set A := (1 - g * g) / (1 - g + 2 * g * u) with hAdef
  have hA1 : 1 - g ≤ A := by
    nlinarith [hA, hden, mul_nonneg (mul_nonneg hg0.le (by linarith : (0 : ℝ) ≤ 1 - g))
      (by linarith : (0 : ℝ) ≤ 1 - u)]
  have hA2 : A ≤ 1 + g := by
    nlinarith [hA, hden, mul_nonneg (mul_nonneg hg0.le hu0)
      (by linarith : (0 : ℝ) ≤ 1 + g)]
  have hfoo : hgfoo g (g * g) (2 * g) u = (1 + g * g - A * A) / (2 * g) := rfl
  constructor
  · rw [hfoo, le_div_iff₀ (by linarith : (0 : ℝ) < 2 * g)]
    nlinarith [mul_self_le_mul_self (by linarith : (0 : ℝ) ≤ A) hA2]
  · rw [hfoo, div_le_one (by linarith : (0 : ℝ) < 2 * g)]
    nlinarith [mul_self_le_mul_self (by linarith : (0 : ℝ) ≤ 1 - g) hA1]

/-- Helper: the rotation of mcextreme.cu lines 124-138 sends a unit
direction to a unit direction whenever (stheta, ctheta) and (sphi, cphi)
each lie on the unit circle. -/
theorem scatterNewDir_unit (stheta ctheta sphi cphi : ℝ)
    (hsc : stheta ^ 2 + ctheta ^ 2 = 1) (hphi : sphi ^ 2 + cphi ^ 2 = 1)
    (d : Vec4) (hd : unit3 d) : unit3 (scatterNewDir stheta ctheta sphi cphi d) := by
  unfold scatterNewDir
  by_cases hz : -1 < d.z ∧ d.z < 1
  · rw [if_pos hz]
    by_cases hs : stheta > 1e-20
    · rw [if_pos hs]
      have h0 : (0 : ℝ) < 1 - d.z * d.z := by nlinarith [hz.1, hz.2]
      have hr : ((Real.sqrt (1 - d.z * d.z))⁻¹) ^ 2 * (1 - d.z * d.z) = 1 := by
        rw [inv_pow, Real.sq_sqrt h0.le]
        exact inv_mul_cancel₀ h0.ne'
      unfold unit3 at hd ⊢
      set r := (Real.sqrt (1 - d.z * d.z))⁻¹ with hrdef
      show (stheta * r * (d.x * d.z * cphi - d.y * sphi) + d.x * ctheta) ^ 2 +
           (stheta * r * (d.y * d.z * cphi + d.x * sphi) + d.y * ctheta) ^ 2 +
           (-(stheta * r) * (1 - d.z * d.z) * cphi + d.z * ctheta) ^ 2 = 1
      linear_combination hsc + stheta ^ 2 * hr +
        stheta ^ 2 * r ^ 2 * (1 - d.z * d.z) * hphi +
        (stheta ^ 2 * r ^ 2 * (d.z ^ 2 * cphi ^ 2 + sphi ^ 2) +
          2 * stheta * ctheta * r * d.z * cphi + ctheta ^ 2) * hd
    · rw [if_neg hs]
      exact hd
  · rw [if_neg hz]
    unfold unit3 at hd ⊢
    show (stheta * cphi) ^ 2 + (stheta * sphi) ^ 2 + ctheta ^ 2 = 1
    linear_combination stheta ^ 2 * hphi + hsc

/-- Helper: the scatter-decision phase preserves the direction norm. -/
theorem stepScatter_unit (P : KParams) (hg0 : 0 < P.gg) (hg1 : P.gg < 1)
    (hgg2 : P.gg2 = P.gg * P.gg) (hggx2 : P.ggx2 = 2 * P.gg)
    (u1 u2 u3 : ℝ) (hu0 : 0 ≤ u3) (hu1 : u3 ≤ 1)
    (s : PState) (hd : unit3 s.ndir) : unit3 (stepScatter P u1 u2 u3 s).ndir := by
  unfold stepScatter
  by_cases h1 : s.nlen.x ≤ 0
  · rw [if_pos h1]
    by_cases h2 : s.npos.w < 1
    · rw [if_pos h2]
      have hfoo := hgfoo_bounds P.gg u3 hg0 hg1 hu0 hu1
      rw [← hgg2, ← hggx2] at hfoo
      have hsc : (Real.sin (Real.arccos (hgfoo P.gg P.gg2 P.ggx2 u3))) ^ 2 +
          (hgfoo P.gg P.gg2 P.ggx2 u3) ^ 2 = 1 := by
        rw [Real.sin_arccos, Real.sq_sqrt
          (by nlinarith [hfoo.1, hfoo.2] : (0 : ℝ) ≤ 1 - (hgfoo P.gg P.gg2 P.ggx2 u3) ^ 2)]
        ring
      have hphi : (Real.sin (TWO_PI * u2)) ^ 2 + (Real.cos (TWO_PI * u2)) ^ 2 = 1 :=
        Real.sin_sq_add_cos_sq _
      exact scatterNewDir_unit _ _ _ _ hsc hphi s.ndir hd
    · rw [if_neg h2]
      exact hd
  · rw [if_neg h1]
    exact hd

/-- Helper: the voxel-step phase never touches the direction. -/
theorem stepMove_ndir (P : KParams) (s : PState) : (stepMove P s).ndir = s.ndir := by
  unfold stepMove
  split_ifs <;> rfl

/-- Helper: the boundary phase preserves the direction norm when the
launch direction c0 is unit. -/
theorem stepBoundary_unit (P : KParams) (hc0 : unit3 P.c0) (s : PState) (hd : unit3 s.ndir) :
    unit3 (stepBoundary P s).ndir := by
  unfold stepBoundary
  by_cases h : relaunchCond P s
  · rw [if_pos h]
    exact hc0
  · rw [if_neg h]
    exact hd

/-- Claim C4: with a unit launch direction c0 and the kernel invoked as
main invokes it (gg2 = gg*gg, ggx2 = 2*gg, 0 < gg < 1, cosine draw in
[0,1]), a unit direction stays exactly unit after the scattering
rotation, after the voxel-step advance and after the boundary phase of
every micro-step (so in particular within the stated 1e-5 tolerance). -/
theorem direction_norm_invariant (P : KParams) (hc0 : unit3 P.c0)
    (hg0 : 0 < P.gg) (hg1 : P.gg < 1)
    (hgg2 : P.gg2 = P.gg * P.gg) (hggx2 : P.ggx2 = 2 * P.gg)
    (u1 u2 u3 : ℝ) (hu0 : 0 ≤ u3) (hu1 : u3 ≤ 1)
    (s : PState) (hd : unit3 s.ndir) :
    unit3 (stepScatter P u1 u2 u3 s).ndir ∧
    unit3 (stepMove P (stepScatter P u1 u2 u3 s)).ndir ∧
    unit3 (microStep P u1 u2 u3 s).ndir := by
  have h1 := stepScatter_unit P hg0 hg1 hgg2 hggx2 u1 u2 u3 hu0 hu1 s hd
  have h2 : unit3 (stepMove P (stepScatter P u1 u2 u3 s)).ndir := by
    rw [stepMove_ndir]
    exact h1
  exact ⟨h1, h2, stepBoundary_unit P hc0 _ h2⟩

/-- Witness for C4 at the parameters of main and a +x photon. -/
theorem direction_norm_invariant_spot :
    unit3 exP.c0 ∧ 0 < exP.gg ∧ exP.gg < 1 ∧ exP.gg2 = exP.gg * exP.gg ∧
    exP.ggx2 = 2 * exP.gg ∧ (0 : ℝ) ≤ 1 / 2 ∧ (1 / 2 : ℝ) ≤ 1 ∧ unit3 exS.ndir ∧
    (unit3 (stepScatter exP (1 / 2) (1 / 2) (1 / 2) exS).ndir ∧
     unit3 (stepMove exP (stepScatter exP (1 / 2) (1 / 2) (1 / 2) exS)).ndir ∧
     unit3 (microStep exP (1 / 2) (1 / 2) (1 / 2) exS).ndir) :=
  ⟨by norm_num [unit3, exP], by norm_num [exP], by norm_num [exP], by norm_num [exP],
   by norm_num [exP], by norm_num, by norm_num, by norm_num [unit3, exS],
   direction_norm_invariant exP (by norm_num [unit3, exP]) (by norm_num [exP])
     (by norm_num [exP]) (by norm_num [exP]) (by norm_num [exP]) (1 / 2) (1 / 2) (1 / 2)
     (by norm_num) (by norm_num) exS (by norm_num [unit3, exS])⟩

/-- Helper: the scatter-decision phase never touches position or weight. -/
theorem stepScatter_npos (P : KParams) (u1 u2 u3 : ℝ) (s : PState) :
    (stepScatter P u1 u2 u3 s).npos = s.npos := by
  unfold stepScatter
  split_ifs <;> rfl

/-- Helper: the scatter-decision phase never touches the fluence array. -/
theorem stepScatter_field (P : KParams) (u1 u2 u3 : ℝ) (s : PState) :
    (stepScatter P u1 u2 u3 s).field = s.field := by
  unfold stepScatter
  split_ifs <;> rfl

/-- Helper: the voxel-step phase never touches the fluence array. -/
theorem stepMove_field (P : KParams) (s : PState) : (stepMove P s).field = s.field := by
  unfold stepMove
  split_ifs <;> rfl

/-- Helper: both branches of the voxel step multiply the weight by a
positive exponential attenuation factor. -/
theorem stepMove_w_pos (P : KParams) (s : PState) (h : 0 < s.npos.w) :
    0 < (stepMove P s).npos.w := by
  unfold stepMove
  split_ifs
  · exact mul_pos h (Real.exp_pos _)
  · exact mul_pos h (Real.exp_pos _)

/-- Helper: the boundary phase keeps the weight positive (relaunch resets
it to p0.w = 1). -/
theorem stepBoundary_w_pos (P : KParams) (hw : P.p0.w = 1) (s : PState)
    (h : 0 < s.npos.w) : 0 < (stepBoundary P s).npos.w := by
  unfold stepBoundary
  by_cases hc : relaunchCond P s
  · rw [if_pos hc]
    show (0 : ℝ) < P.p0.w
    rw [hw]
    norm_num
  · rw [if_neg hc]
    exact h

/-- Helper: the boundary phase never decreases a fluence cell when the
weight is nonnegative: relaunch leaves the array alone, deposit adds
(nlen.x > 0 ? npos.w : 0) which is nonnegative. -/
theorem stepBoundary_field_mono (P : KParams) (s : PState) (h : 0 ≤ s.npos.w) (v : ℤ) :
    s.field v ≤ (stepBoundary P s).field v := by
  unfold stepBoundary
  by_cases hc : relaunchCond P s
  · rw [if_pos hc]
  · rw [if_neg hc]
    show s.field v ≤ if v = s.idx1d then s.field v + (if s.nlen.x > 0 then s.npos.w else 0)
      else s.field v
    split_ifs with h1 h2
    · linarith
    · linarith
    · linarith

/-- Helper: one micro-step keeps the weight positive. -/
theorem microStep_w_pos (P : KParams) (hw : P.p0.w = 1) (u1 u2 u3 : ℝ) (s : PState)
    (h : 0 < s.npos.w) : 0 < (microStep P u1 u2 u3 s).npos.w := by
  unfold microStep
  apply stepBoundary_w_pos P hw
  apply stepMove_w_pos
  rw [stepScatter_npos]
  exact h

/-- Helper: one micro-step never decreases a fluence cell. -/
theorem microStep_field_mono (P : KParams) (u1 u2 u3 : ℝ) (s : PState)
    (h : 0 < s.npos.w) (v : ℤ) : s.field v ≤ (microStep P u1 u2 u3 s).field v := by
  unfold microStep
  have h2 : 0 < (stepMove P (stepScatter P u1 u2 u3 s)).npos.w := by
    apply stepMove_w_pos
    rw [stepScatter_npos]
    exact h
  have e2 : (stepMove P (stepScatter P u1 u2 u3 s)).field = s.field := by
    rw [stepMove_field, stepScatter_field]
  calc s.field v = (stepMove P (stepScatter P u1 u2 u3 s)).field v := by rw [e2]
    _ ≤ (stepBoundary P (stepMove P (stepScatter P u1 u2 u3 s))).field v :=
        stepBoundary_field_mono P _ h2.le v

/-- Helper: over any sequence of micro-steps the weight stays positive
and every fluence cell is non-decreasing. -/
theorem runSteps_mono (P : KParams) (hw : P.p0.w = 1) (us : List (ℝ × ℝ × ℝ)) (s : PState)
    (h : 0 < s.npos.w) :
    0 < (runSteps P us s).npos.w ∧ ∀ v, s.field v ≤ (runSteps P us s).field v := by
  induction us generalizing s with
  | nil => exact ⟨h, fun v => le_refl _⟩
  | cons u us ih =>
    have hw1 := microStep_w_pos P hw u.1 u.2.1 u.2.2 s h
    have hm := microStep_field_mono P u.1 u.2.1 u.2.2 s h
    obtain ⟨ha, hb⟩ := ih (microStep P u.1 u.2.1 u.2.2 s) hw1
    exact ⟨ha, fun v => le_trans (hm v) (hb v)⟩

/-- Claim C5: with launch weight p0.w = 1 and a photon of positive
weight, running any number of micro-steps keeps the weight positive
(it is only multiplied by positive exponentials or reset to 1), never
decreases any fluence cell, and from a nonnegative fluence grid every
cell stays nonnegative. -/
theorem fluence_nonneg_monotone (P : KParams) (hw : P.p0.w = 1)
    (us : List (ℝ × ℝ × ℝ)) (s : PState) (hws : 0 < s.npos.w) :
    0 < (runSteps P us s).npos.w ∧
    (∀ v, s.field v ≤ (runSteps P us s).field v) ∧
    ((∀ v, 0 ≤ s.field v) → ∀ v, 0 ≤ (runSteps P us s).field v) := by
  obtain ⟨h1, h2⟩ := runSteps_mono P hw us s hws
  exact ⟨h1, h2, fun h0 v => le_trans (h0 v) (h2 v)⟩

/-- Witness for C5 at the parameters of main and one micro-step. -/
theorem fluence_nonneg_monotone_spot :
    exP.p0.w = 1 ∧ 0 < exS.npos.w ∧
    (0 < (runSteps exP [(1 / 2, 1 / 2, 1 / 2)] exS).npos.w ∧
     (∀ v, exS.field v ≤ (runSteps exP [(1 / 2, 1 / 2, 1 / 2)] exS).field v) ∧
     ((∀ v, 0 ≤ exS.field v) → ∀ v, 0 ≤ (runSteps exP [(1 / 2, 1 / 2, 1 / 2)] exS).field v)) :=
  ⟨by norm_num [exP], by norm_num [exS],
   fluence_nonneg_monotone exP (by norm_num [exP]) [(1 / 2, 1 / 2, 1 / 2)] exS
     (by norm_num [exS])⟩

/-- Claim C1 (amended): every micro-step ends with exactly one of two
outcomes, decided by the boundary test of line 157 on the post-move state
t: if t.nlen.x > lmax or a position component is below 0 or above the
corresponding maxidx component (main passes maxidx = (Nx-1, Ny-1, Nz-1)),
the photon is relaunched from (p0, c0) with weight 1, residual flight 0,
pathlength 0, relaunch counter incremented and the fluence untouched;
otherwise the fluence cell of the current voxel index receives
(t.nlen.x > 0 ? t.npos.w : 0) and the photon state is kept. -/
theorem microstep_outcome_dichotomy (P : KParams) (hw : P.p0.w = 1)
    (u1 u2 u3 : ℝ) (s : PState) :
    (relaunchCond P (stepMove P (stepScatter P u1 u2 u3 s)) →
      microStep P u1 u2 u3 s =
        { stepMove P (stepScatter P u1 u2 u3 s) with
            npos := P.p0, ndir := P.c0,
            nlen := ⟨0, 0, (stepMove P (stepScatter P u1 u2 u3 s)).nlen.z + 1⟩,
            idx1d := (stepMove P (stepScatter P u1 u2 u3 s)).idxorig } ∧
      (microStep P u1 u2 u3 s).npos.w = 1) ∧
    (¬ relaunchCond P (stepMove P (stepScatter P u1 u2 u3 s)) →
      microStep P u1 u2 u3 s =
        { stepMove P (stepScatter P u1 u2 u3 s) with
            field := fun j =>
              if j = (stepMove P (stepScatter P u1 u2 u3 s)).idx1d
              then (stepMove P (stepScatter P u1 u2 u3 s)).field j +
                (if (stepMove P (stepScatter P u1 u2 u3 s)).nlen.x > 0
                 then (stepMove P (stepScatter P u1 u2 u3 s)).npos.w else 0)
              else (stepMove P (stepScatter P u1 u2 u3 s)).field j }) := by
  constructor
  · intro h
    constructor
    · unfold microStep stepBoundary
      rw [if_pos h]
    · unfold microStep stepBoundary
      rw [if_pos h]
      exact hw
  · intro h
    unfold microStep stepBoundary
    rw [if_neg h]

/-- Concrete evaluation: from exS (position x = 126.5, direction +x,
residual flight 5), the scatter phase is skipped (nlen.x = 5 > 0) and
the voxel step advances one full minstep to x = 127.5 with residual
flight 3 and unchanged weight (mua = 0). -/
theorem exS_move_eval :
    stepMove exP (stepScatter exP (1 / 2) (1 / 2) (1 / 2) exS) =
      { npos := ⟨127.5, 10, 10, 0.5⟩, ndir := ⟨1, 0, 0, 0⟩, nlen := ⟨3, 1, 0⟩,
        idx1d := voxelIndex ⟨127.5, 10, 10, 0.5⟩, idxorig := 165120,
        field := fun _ => 0 } := by
  have h1 : stepScatter exP (1 / 2) (1 / 2) (1 / 2) exS = exS := by
    unfold stepScatter
    rw [if_neg (by norm_num [exS])]
  rw [h1]
  unfold stepMove propOf
  rw [if_neg (by norm_num [exP, exS])]
  norm_num [exP, exS, Real.exp_zero]

/-- The post-move state of the concrete run triggers the relaunch test:
x = 127.5 exceeds maxidx.x = 127. -/
theorem exS_move_relaunch :
    relaunchCond exP (stepMove exP (stepScatter exP (1 / 2) (1 / 2) (1 / 2) exS)) := by
  rw [exS_move_eval]
  unfold relaunchCond
  norm_num [exP]

/-- Witness for C1 (amended) at the parameters of main: the concrete
relaunch resets the weight to 1. -/
theorem microstep_outcome_dichotomy_spot :
    exP.p0.w = 1 ∧ (microStep exP (1 / 2) (1 / 2) (1 / 2) exS).npos.w = 1 :=
  ⟨by norm_num [exP],
   ((microstep_outcome_dichotomy exP (by norm_num [exP]) (1 / 2) (1 / 2) (1 / 2) exS).1
     exS_move_relaunch).2⟩

/-- Counterexample to C1 as stated: after the voxel step the photon sits
at (127.5, 10, 10), inside the claimed box [0, Nx] x [0, Ny] x [0, Nz]
= [0,128]^3, with residual flight 3 <= lmax = 100 and weight 1/2, so the
claim demands a deposit of 1/2 into the fluence cell; the kernel instead
relaunches (127.5 > maxidx.x = 127): the fluence stays 0 everywhere and
the relaunch counter is incremented. -/
theorem microstep_relaunch_inside_claimed_box :
    (¬ ((stepMove exP (stepScatter exP (1 / 2) (1 / 2) (1 / 2) exS)).nlen.x > exP.lmax) ∧
     0 ≤ (stepMove exP (stepScatter exP (1 / 2) (1 / 2) (1 / 2) exS)).npos.x ∧
     (stepMove exP (stepScatter exP (1 / 2) (1 / 2) (1 / 2) exS)).npos.x ≤ 128 ∧
     0 ≤ (stepMove exP (stepScatter exP (1 / 2) (1 / 2) (1 / 2) exS)).npos.y ∧
     (stepMove exP (stepScatter exP (1 / 2) (1 / 2) (1 / 2) exS)).npos.y ≤ 128 ∧
     0 ≤ (stepMove exP (stepScatter exP (1 / 2) (1 / 2) (1 / 2) exS)).npos.z ∧
     (stepMove exP (stepScatter exP (1 / 2) (1 / 2) (1 / 2) exS)).npos.z ≤ 128) ∧
    (stepMove exP (stepScatter exP (1 / 2) (1 / 2) (1 / 2) exS)).nlen.x > 0 ∧
    (stepMove exP (stepScatter exP (1 / 2) (1 / 2) (1 / 2) exS)).npos.w = 1 / 2 ∧
    (∀ j, (microStep exP (1 / 2) (1 / 2) (1 / 2) exS).field j = 0) ∧
    (microStep exP (1 / 2) (1 / 2) (1 / 2) exS).nlen.z = exS.nlen.z + 1 ∧
    (0 : ℝ) ≠ 1 / 2 := by
  have hms : microStep exP (1 / 2) (1 / 2) (1 / 2) exS =
      stepBoundary exP (stepMove exP (stepScatter exP (1 / 2) (1 / 2) (1 / 2) exS)) := rfl
  refine ⟨?_, ?_, ?_, ?_, ?_, by norm_num⟩
  · rw [exS_move_eval]
    norm_num [exP]
  · rw [exS_move_eval]
    norm_num
  · rw [exS_move_eval]
    norm_num
  · intro j
    rw [hms]
    unfold stepBoundary
    rw [if_pos exS_move_relaunch, exS_move_eval]
  · rw [hms]
    unfold stepBoundary
    rw [if_pos exS_move_relaunch, exS_move_eval]
    norm_num [exS]

/-- Helper: closed form of the two running sums of MiePoly lines 312-328
after n loop iterations (n >= 1): the i = 0 term contributes
mu0*s11[0]*|mu0-1| to the numerator sum but the signed s11[0]*(mu0-1) to
the denominator sum. -/
theorem trapzSums_eq (mu s11 : ℕ → ℚ) (n : ℕ) (hn : 1 ≤ n) :
    trapzSums mu s11 n =
      (mu 0 * s11 0 * |mu 0 - 1| +
        Finset.sum (Finset.Ico 1 n)
          (fun k => mu k * (s11 k + s11 (k - 1)) * |mu k - mu (k - 1)| / 2),
       s11 0 * (mu 0 - 1) +
        Finset.sum (Finset.Ico 1 n)
          (fun k => (s11 k + s11 (k - 1)) * |mu k - mu (k - 1)| / 2)) := by
  induction n with
  | zero => exact absurd hn (by norm_num)
  | succ m ih =>
    rcases Nat.lt_or_ge m 1 with hm | hm
    · interval_cases m
      simp [trapzSums]
    · have hne : m ≠ 0 := by omega
      simp only [trapzSums, if_neg hne, ih hm]
      rw [Finset.sum_Ico_succ_top hm, Finset.sum_Ico_succ_top hm]
      simp only [Prod.mk.injEq]
      constructor <;> ring

/-- Claim C9 (amended): the anisotropy returned by MiePoly is the
quotient of the two accumulated sums, whose k >= 1 terms are the claimed
trapezoid terms, but whose k = 0 terms are mu0*S11_0*|mu0-1| (numerator)
and the signed, unhalved S11_0*(mu0-1) (denominator). -/
theorem miePolyG_trapezoid (mu s11 : ℕ → ℚ) (n : ℕ) (hn : 1 ≤ n) :
    miePolyG mu s11 n =
      (mu 0 * s11 0 * |mu 0 - 1| +
        Finset.sum (Finset.Ico 1 n)
          (fun k => mu k * (s11 k + s11 (k - 1)) * |mu k - mu (k - 1)| / 2)) /
      (s11 0 * (mu 0 - 1) +
        Finset.sum (Finset.Ico 1 n)
          (fun k => (s11 k + s11 (k - 1)) * |mu k - mu (k - 1)| / 2)) := by
  unfold miePolyG
  rw [trapzSums_eq mu s11 n hn]

/-- Witness for C9 (amended) at n = 1 with constant tables. -/
theorem miePolyG_trapezoid_spot :
    (1 : ℕ) ≤ 1 ∧
    miePolyG (fun _ => (1 : ℚ) / 2) (fun _ => 1) 1 =
      ((1 : ℚ) / 2 * 1 * |(1 : ℚ) / 2 - 1| +
        Finset.sum (Finset.Ico 1 1)
          (fun _k => (1 : ℚ) / 2 * (1 + 1) * |(1 : ℚ) / 2 - 1 / 2| / 2)) /
      (1 * ((1 : ℚ) / 2 - 1) +
        Finset.sum (Finset.Ico 1 1)
          (fun _k => ((1 : ℚ) + 1) * |(1 : ℚ) / 2 - 1 / 2| / 2)) :=
  ⟨le_refl 1, miePolyG_trapezoid (fun _ => 1 / 2) (fun _ => 1) 1 (le_refl 1)⟩

/-- Counterexample to C9 as stated: with NANGLES = 1, mu identically 1/2
and S11 identically 1, the code returns g = (1/4)/(-1/2) = -1/2 (the
denominator k = 0 term is the signed s11[0]*(mu[0]-1) = -1/2) while the
claimed quotient of absolute-interval trapezoid sums gives +1/2. -/
theorem miePolyG_deviates :
    miePolyG (fun _ => (1 : ℚ) / 2) (fun _ => 1) 1 = -(1 / 2) ∧
    specTrapzG (fun _ => (1 : ℚ) / 2) (fun _ => 1) 1 = 1 / 2 ∧
    miePolyG (fun _ => (1 : ℚ) / 2) (fun _ => 1) 1 ≠
      specTrapzG (fun _ => (1 : ℚ) / 2) (fun _ => 1) 1 := by
  have h1 : miePolyG (fun _ => (1 : ℚ) / 2) (fun _ => 1) 1 = -(1 / 2) := by
    norm_num [miePolyG, trapzSums, abs_of_nonpos]
  have h2 : specTrapzG (fun _ => (1 : ℚ) / 2) (fun _ => 1) 1 = 1 / 2 := by
    norm_num [specTrapzG, abs_of_nonpos]
  refine ⟨h1, h2, ?_⟩
  rw [h1, h2]
  norm_num

/-- Helper: the accumulation body fails at an index past the smatrix
length. -/
theorem accumIdx_oob (w : ℚ) (smx avg : List Vec4Q) (i : ℕ) (h : smx.length ≤ i) :
    accumIdx w smx avg i = none := by
  unfold accumIdx
  rw [List.get?_eq_none.mpr h, Option.none_bind]

/-- Helper: the accumulation body succeeds at an in-bounds index and
preserves the array length. -/
theorem accumIdx_ok (w : ℚ) (smx avg : List Vec4Q) (i : ℕ)
    (h1 : i < smx.length) (h2 : i < avg.length) :
    ∃ avg2, accumIdx w smx avg i = some avg2 ∧ avg2.length = avg.length := by
  unfold accumIdx setIdx
  rw [List.get?_eq_get h1, List.get?_eq_get h2, Option.some_bind, Option.some_bind, if_pos h2]
  exact ⟨_, rfl, List.length_set avg i _⟩

/-- Helper: sequencing the accumulation body over concatenated index
lists. -/
theorem accumGo_append (w : ℚ) (smx : List Vec4Q) (l1 l2 : List ℕ) (avg : List Vec4Q) :
    accumGo w smx (l1 ++ l2) avg = (accumGo w smx l1 avg).bind (accumGo w smx l2) := by
  induction l1 generalizing avg with
  | nil => rw [List.nil_append]; rfl
  | cons i rest ih =>
    show (accumIdx w smx avg i).bind (accumGo w smx (rest ++ l2)) =
      ((accumIdx w smx avg i).bind (accumGo w smx rest)).bind (accumGo w smx l2)
    cases h : accumIdx w smx avg i with
    | none => rfl
    | some avg2 =>
      rw [Option.some_bind, Option.some_bind]
      exact ih avg2

/-- Helper: indices 0..n-1 stay in bounds and preserve the length. -/
theorem accumGo_range_ok (w : ℚ) (smx : List Vec4Q) (n : ℕ) :
    ∀ avg : List Vec4Q, avg.length = smx.length → n ≤ smx.length →
    ∃ avg2, accumGo w smx (List.range n) avg = some avg2 ∧ avg2.length = smx.length := by
  induction n with
  | zero => exact fun avg hl _ => ⟨avg, rfl, hl⟩
  | succ m ih =>
    intro avg hl hn
    obtain ⟨a2, ha2, hl2⟩ := ih avg hl (by omega)
    obtain ⟨a3, ha3, hl3⟩ := accumIdx_ok w smx a2 m (by omega) (by omega)
    refine ⟨a3, ?_, by rw [hl3, hl2]⟩
    rw [List.range_succ, accumGo_append, ha2, Option.some_bind]
    show (accumIdx w smx a2 m).bind (accumGo w smx []) = some a3
    rw [ha3, Option.some_bind]
    rfl

/-- Helper: the MiePoly accumulation loop (i = 0..NANGLES inclusive) over
arrays of length NANGLES always runs off the end. -/
theorem miePolyAccumLoop_oob (w : ℚ) (smx avg : List Vec4Q) (n : ℕ)
    (h1 : smx.length = n) (h2 : avg.length = n) :
    miePolyAccumLoop w smx avg n = none := by
  unfold miePolyAccumLoop
  obtain ⟨a2, ha2, _⟩ := accumGo_range_ok w smx n avg (by omega) (by omega)
  rw [List.range_succ, accumGo_append, ha2, Option.some_bind]
  show (accumIdx w smx a2 n).bind (accumGo w smx []) = none
  rw [accumIdx_oob w smx a2 n (by omega), Option.none_bind]

/-- Helper: a checked store fails exactly past the end. -/
theorem setIdx_oob {α : Type} (l : List α) (i : ℕ) (v : α) (h : l.length ≤ i) :
    setIdx l i v = none := by
  unfold setIdx
  rw [if_neg (by omega)]

/-- Helper: a checked store succeeds in bounds and preserves the length. -/
theorem setIdx_ok {α : Type} (l : List α) (i : ℕ) (v : α) (h : i < l.length) :
    ∃ l2, setIdx l i v = some l2 ∧ l2.length = l.length := by
  unfold setIdx
  rw [if_pos h]
  exact ⟨_, rfl, List.length_set l i v⟩

/-- Helper: sequencing the WhittleMattern store body over concatenated
index lists. -/
theorem whittleGo_append (klc dfr : ℝ) (na : ℕ) (l1 l2 : List ℕ) (arrs : List Vec4) :
    whittleGo klc dfr na (l1 ++ l2) arrs =
      (whittleGo klc dfr na l1 arrs).bind (whittleGo klc dfr na l2) := by
  induction l1 generalizing arrs with
  | nil => rw [List.nil_append]; rfl
  | cons i rest ih =>
    show (setIdx arrs i (whittleEntry klc dfr na i)).bind (whittleGo klc dfr na (rest ++ l2)) =
      ((setIdx arrs i (whittleEntry klc dfr na i)).bind (whittleGo klc dfr na rest)).bind
        (whittleGo klc dfr na l2)
    cases h : setIdx arrs i (whittleEntry klc dfr na i) with
    | none => rfl
    | some arrs2 =>
      rw [Option.some_bind, Option.some_bind]
      exact ih arrs2

/-- Helper: store indices 1..m stay in bounds while m is below the
length. -/
theorem whittleGo_range_ok (klc dfr : ℝ) (na : ℕ) (m : ℕ) :
    ∀ arrs : List Vec4, m < arrs.length →
    ∃ a2, whittleGo klc dfr na (List.range' 1 m) arrs = some a2 ∧ a2.length = arrs.length := by
  induction m with
  | zero => exact fun arrs _ => ⟨arrs, rfl, rfl⟩
  | succ k ih =>
    intro arrs hk
    obtain ⟨a2, ha2, hl2⟩ := ih arrs (by omega)
    obtain ⟨a3, ha3, hl3⟩ := setIdx_ok a2 (1 + 1 * k) (whittleEntry klc dfr na (1 + 1 * k))
      (by omega)
    refine ⟨a3, ?_, by rw [hl3, hl2]⟩
    rw [List.range'_concat, whittleGo_append, ha2, Option.some_bind]
    show (setIdx a2 (1 + 1 * k) _).bind (whittleGo klc dfr na []) = some a3
    rw [ha3, Option.some_bind]
    rfl

/-- Helper: the WhittleMattern spectral loop (i = 1..NANGLES inclusive)
over arrays of length NANGLES >= 1 always runs off the end. -/
theorem whittleLoop_oob (klc dfr : ℝ) (arrs : List Vec4) (n : ℕ)
    (hn : 1 ≤ n) (h : arrs.length = n) :
    whittleLoop klc dfr arrs n = none := by
  unfold whittleLoop
  cases n with
  | zero => omega
  | succ k =>
    obtain ⟨a2, ha2, hl2⟩ := whittleGo_range_ok klc dfr (k + 1) k arrs (by omega)
    rw [List.range'_concat, whittleGo_append, ha2, Option.some_bind]
    show (setIdx a2 (1 + 1 * k) _).bind (whittleGo klc dfr (k + 1) []) = none
    rw [setIdx_oob a2 (1 + 1 * k) _ (by omega), Option.none_bind]

/-- Claim C10 (code bug): the angle loops of MiePoly (for i = 0; i <=
NANGLES) and of WhittleMattern (for i = 1; i <= NANGLES) both touch index
NANGLES of arrays allocated with NANGLES entries: in the Option-indexed
embedding every run over length-NANGLES arrays returns none, refuting the
claim that no access in these loops is out of bounds. -/
theorem angle_loops_out_of_bounds (w : ℚ) (smx avg : List Vec4Q)
    (klc dfr : ℝ) (arrs : List Vec4) (n : ℕ) (hn : 1 ≤ n)
    (h1 : smx.length = n) (h2 : avg.length = n) (h3 : arrs.length = n) :
    miePolyAccumLoop w smx avg n = none ∧ whittleLoop klc dfr arrs n = none :=
  ⟨miePolyAccumLoop_oob w smx avg n h1 h2, whittleLoop_oob klc dfr arrs n hn h3⟩

/-- Witness for C10 with NANGLES = 2 and zero-filled arrays. -/
theorem angle_loops_out_of_bounds_spot :
    miePolyAccumLoop 1 [⟨0, 0, 0, 0⟩, ⟨0, 0, 0, 0⟩] [⟨0, 0, 0, 0⟩, ⟨0, 0, 0, 0⟩] 2 = none ∧
    whittleLoop 1 2 [⟨0, 0, 0, 0⟩, ⟨0, 0, 0, 0⟩] 2 = none :=
  angle_loops_out_of_bounds 1 [⟨0, 0, 0, 0⟩, ⟨0, 0, 0, 0⟩] [⟨0, 0, 0, 0⟩, ⟨0, 0, 0, 0⟩]
    1 2 [⟨0, 0, 0, 0⟩, ⟨0, 0, 0, 0⟩] 2 (by norm_num) rfl rfl rfl

end MCX

end
